import Mathlib

/-!
# storage-leveldb: a shallow embedding of `leveldb/leveldb.go`

The Go package wraps the external engine `github.com/syndtr/goleveldb`.
The file has three layers:

* `goleveldb`: a reference model of the parts of the external engine that the
  wrapper calls (`DB`, `Batch`, `Batch.Replay`, `OpenFile`, `RecoverFile`);
* the wrapper itself (`NewDB`, `Init`, `LevelDB.*`, `LdbBatch.*`, `replayer.*`),
  transcribed function by function from `leveldb.go`;
* the properties of the wrapper.

Go pointers to mutable objects are rendered by explicit state passing: a method
takes the current value of every object it may mutate and returns the new one.
A Go `error` is an `Option Error` (`none` is `nil`); a `[]byte` result that may
be `nil` is an `Option Bytes`.
-/

namespace LevelDBStore

/-- A byte slice, `[]byte`. -/
abbrev Bytes := List (Fin 256)

/-! ## Reference model of the external engine -/

namespace goleveldb

/-- The error values the wrapper can tell apart.  `ErrCorrupted` stands for an
error whose dynamic type is `*errors.ErrCorrupted`; `other` is any further
error (I/O failure, lock failure, ...). -/
inductive Error where
  | ErrNotFound
  | ErrClosed
  | ErrCorrupted (info : Nat)
  | other (code : Nat)
  deriving DecidableEq, Repr

/-- One record of a `leveldb.Batch`: a value record or a deletion record. -/
inductive Record where
  | put (key value : Bytes)
  | del (key : Bytes)
  deriving DecidableEq, Repr

/-- The type `leveldb.Batch`: the records in the order they were appended. -/
structure Batch where
  recs : List Record
  deriving DecidableEq, Repr

/-- The expression `new(leveldb.Batch)`: the empty batch. -/
def Batch.new : Batch := { recs := [] }

/-- The method `(*leveldb.Batch).Put`: appends a value record. -/
def Batch.Put (b : Batch) (key value : Bytes) : Batch :=
  { recs := b.recs ++ [Record.put key value] }

/-- The method `(*leveldb.Batch).Delete`: appends a deletion record. -/
def Batch.Delete (b : Batch) (key : Bytes) : Batch :=
  { recs := b.recs ++ [Record.del key] }

/-- The method `(*leveldb.Batch).Reset`: drops every record. -/
def Batch.Reset (_b : Batch) : Batch := { recs := [] }

/-- The method `(*leveldb.Batch).Len`: the number of records. -/
def Batch.Len (b : Batch) : Nat := b.recs.length

/-- The interface `leveldb.BatchReplay` over a receiver state `ρ`.  Its two
methods return nothing. -/
structure BatchReplay (ρ : Type) where
  Put : ρ → Bytes → Bytes → ρ
  Delete : ρ → Bytes → ρ

/-- One iteration of the loop of `(*leveldb.Batch).Replay`. -/
def BatchReplay.dispatch {ρ : Type} (r : BatchReplay ρ) (s : ρ) (e : Record) : ρ :=
  match e with
  | Record.put k v => r.Put s k v
  | Record.del k => r.Delete s k

/-- The method `(*leveldb.Batch).Replay`: calls `r.Put` / `r.Delete` once for
every record, in order, and returns `nil`. -/
def Batch.Replay {ρ : Type} (b : Batch) (r : BatchReplay ρ) (s : ρ) : ρ × Option Error :=
  (b.recs.foldl r.dispatch s, none)

/-- The committed key/value content of an engine, as an association list. -/
abbrev Table := List (Bytes × Bytes)

/-- The value stored under `key`, if any. -/
def Table.find : Table → Bytes → Option Bytes
  | [], _ => none
  | (k, v) :: rest, key => if k = key then some v else Table.find rest key

/-- The table without `key`. -/
def Table.erase (t : Table) (key : Bytes) : Table :=
  t.filter (fun p => decide (p.1 ≠ key))

/-- The table with `key` bound to `value`. -/
def Table.set (t : Table) (key value : Bytes) : Table :=
  (key, value) :: Table.erase t key

/-- The effect of one batch record on the table. -/
def Table.apply (t : Table) (e : Record) : Table :=
  match e with
  | Record.put k v => Table.set t k v
  | Record.del k => Table.erase t k

/-- The type `leveldb.DB`: the committed content and whether `Close` has been
called.  The one failure of the engine that is modelled is `ErrClosed`, which
every operation on a closed engine returns. -/
structure DB where
  closed : Bool
  data : Table
  deriving DecidableEq, Repr

/-- The method `(*leveldb.DB).ok`: `ErrClosed` once the engine is closed. -/
def DB.ok (db : DB) : Option Error :=
  if db.closed then some Error.ErrClosed else none

/-- The method `(*leveldb.DB).Put`. -/
def DB.Put (db : DB) (key value : Bytes) : DB × Option Error :=
  match db.ok with
  | some e => (db, some e)
  | none => ({ db with data := Table.set db.data key value }, none)

/-- The method `(*leveldb.DB).Delete`; deleting an absent key is no error. -/
def DB.Delete (db : DB) (key : Bytes) : DB × Option Error :=
  match db.ok with
  | some e => (db, some e)
  | none => ({ db with data := Table.erase db.data key }, none)

/-- The method `(*leveldb.DB).Get`: `ErrNotFound` for an absent key. -/
def DB.Get (db : DB) (key : Bytes) : Option Bytes × Option Error :=
  match db.ok with
  | some e => (none, some e)
  | none =>
    match Table.find db.data key with
    | some v => (some v, none)
    | none => (none, some Error.ErrNotFound)

/-- The method `(*leveldb.DB).Has`. -/
def DB.Has (db : DB) (key : Bytes) : Bool × Option Error :=
  match db.ok with
  | some e => (false, some e)
  | none => ((Table.find db.data key).isSome, none)

/-- The method `(*leveldb.DB).Write`: applies every record of the batch, in
order, in one step; the batch is only read. -/
def DB.Write (db : DB) (batch : Batch) : DB × Option Error :=
  match db.ok with
  | some e => (db, some e)
  | none => ({ db with data := batch.recs.foldl Table.apply db.data }, none)

/-- The method `(*leveldb.DB).Close`. -/
def DB.Close (db : DB) : DB × Option Error :=
  match db.ok with
  | some e => (db, some e)
  | none => ({ db with closed := true }, none)

/-- The package functions `leveldb.OpenFile` and `leveldb.RecoverFile` over a
file system state `φ`.  Each returns either an engine and a `nil` error, or a
`nil` engine and an error; nothing else is assumed about them. -/
structure Package (φ : Type) where
  OpenFile : φ → String → φ × Except Error DB
  RecoverFile : φ → String → φ × Except Error DB

end goleveldb

open goleveldb

/-! ## The wrapper: `leveldb.go` -/

/-- Modelled from the spec: the interface `types.Putter` (package `types` is not
among the sources): anything exposing `Put(key, value) → error` and
`Delete(key) → error`.  `ω` is the state of the object behind the interface. -/
structure Putter (ω : Type) where
  Put : ω → Bytes → Bytes → ω × Option Error
  Delete : ω → Bytes → ω × Option Error

/-- The struct `LevelDB`: the path and the engine the handle owns. -/
structure LevelDB where
  fn : String
  db : DB
  deriving DecidableEq, Repr

/-- The type assertion `err.(*errors.ErrCorrupted)` on the error of an open
result; it fails on a `nil` error. -/
def corrupted (r : Except Error DB) : Bool :=
  match r with
  | Except.error (Error.ErrCorrupted _) => true
  | _ => false

/-- The function `NewDB`.  Returns the new file system state, the handle (or
`nil`) and the error. -/
def NewDB {φ : Type} (pkg : Package φ) (fs : φ) (file : String) :
    φ × Option LevelDB × Option Error :=
  let opened := pkg.OpenFile fs file
  let res := if corrupted opened.2 then pkg.RecoverFile opened.1 file else opened
  match res.2 with
  | Except.error err => (res.1, none, some err)
  | Except.ok db => (res.1, some { fn := file, db := db }, none)

/-- The package-level variables `db`, `err` and `once` (`once` holds whether
the `sync.Once` has fired). -/
structure Globals where
  db : Option LevelDB
  err : Option Error
  once : Bool
  deriving DecidableEq, Repr

/-- The package-level variables when the process starts. -/
def Globals.initial : Globals := { db := none, err := none, once := false }

/-- How a call ends: it returns a value or it panics with an error. -/
inductive Outcome (α : Type) where
  | returned (a : α)
  | panicked (e : Error)
  deriving DecidableEq, Repr

/-- The function `Init`.  `once.Do(f)` runs `f` only while the once has not
fired, and the once has fired after `f` returned or panicked. -/
def Init {φ : Type} (pkg : Package φ) (fs : φ) (g : Globals) (file : String) :
    (φ × Globals) × Outcome (Option LevelDB) :=
  if g.once then ((fs, g), Outcome.returned g.db)
  else
    let r := NewDB pkg fs file
    let g1 : Globals := { db := r.2.1, err := r.2.2, once := true }
    match g1.err with
    | some e => ((r.1, g1), Outcome.panicked e)
    | none => ((r.1, g1), Outcome.returned g1.db)

/-- The method `(*LevelDB).Path`. -/
def LevelDB.Path (db : LevelDB) : String := db.fn

/-- The method `(*LevelDB).Put`. -/
def LevelDB.Put (db : LevelDB) (key value : Bytes) : LevelDB × Option Error :=
  let r := db.db.Put key value
  ({ db with db := r.1 }, r.2)

/-- The method `(*LevelDB).Get`. -/
def LevelDB.Get (db : LevelDB) (key : Bytes) : Option Bytes × Option Error :=
  let r := db.db.Get key
  match r.2 with
  | some err => (none, some err)
  | none => (r.1, none)

/-- The method `(*LevelDB).Delete`. -/
def LevelDB.Delete (db : LevelDB) (key : Bytes) : LevelDB × Option Error :=
  let r := db.db.Delete key
  ({ db with db := r.1 }, r.2)

/-- The method `(*LevelDB).Has`. -/
def LevelDB.Has (db : LevelDB) (key : Bytes) : Bool × Option Error :=
  db.db.Has key

/-- The method `(*LevelDB).GetDB`. -/
def LevelDB.GetDB (db : LevelDB) : DB := db.db

/-- The method `(*LevelDB).Close`. -/
def LevelDB.Close (db : LevelDB) : LevelDB × Option Error :=
  let r := db.db.Close
  match r.2 with
  | some err => ({ db with db := r.1 }, some err)
  | none => ({ db with db := r.1 }, none)

/-- The handle in the role of a `types.Putter`. -/
def LevelDB.asPutter : Putter LevelDB :=
  { Put := LevelDB.Put, Delete := LevelDB.Delete }

/-- The struct `LdbBatch`.  Its field `db` is the pointer copied from the
handle in `NewBatch`; the engine it points to is passed to `Write`, the only
method that follows the pointer.  The field `size` is a Go `int`; it is kept as
an unbounded integer because it cannot wrap: every staged value is copied into
the byte buffer of `batch`, whose length is itself an `int`, and each `Delete`
adds at least one byte to that buffer, so `size` never exceeds that length. -/
structure LdbBatch where
  batch : Batch
  size : Int
  deriving DecidableEq, Repr

/-- The method `(*LevelDB).NewBatch`. -/
def LevelDB.NewBatch (_db : LevelDB) : LdbBatch :=
  { batch := Batch.new, size := 0 }

/-- The method `(*LdbBatch).Put`. -/
def LdbBatch.Put (b : LdbBatch) (key value : Bytes) : LdbBatch × Option Error :=
  ({ batch := b.batch.Put key value, size := b.size + (value.length : Int) }, none)

/-- The method `(*LdbBatch).Write`, on the engine `b.db` points to. -/
def LdbBatch.Write (b : LdbBatch) (db : DB) : DB × Option Error :=
  db.Write b.batch

/-- The method `(*LdbBatch).Delete`. -/
def LdbBatch.Delete (b : LdbBatch) (key : Bytes) : LdbBatch × Option Error :=
  ({ batch := b.batch.Delete key, size := b.size + 1 }, none)

/-- The method `(*LdbBatch).ValueSize`. -/
def LdbBatch.ValueSize (b : LdbBatch) : Int := b.size

/-- The method `(*LdbBatch).Reset`. -/
def LdbBatch.Reset (b : LdbBatch) : LdbBatch :=
  { batch := b.batch.Reset, size := 0 }

/-- The struct `replayer`: the state of the wrapped writer and the recorded
failure. -/
structure replayer (ω : Type) where
  writer : ω
  failure : Option Error

/-- The method `(*replayer).Put`. -/
def replayer.Put {ω : Type} (w : Putter ω) (r : replayer ω) (key value : Bytes) :
    replayer ω :=
  match r.failure with
  | some _ => r
  | none =>
    let res := w.Put r.writer key value
    { writer := res.1, failure := res.2 }

/-- The method `(*replayer).Delete`. -/
def replayer.Delete {ω : Type} (w : Putter ω) (r : replayer ω) (key : Bytes) :
    replayer ω :=
  match r.failure with
  | some _ => r
  | none =>
    let res := w.Delete r.writer key
    { writer := res.1, failure := res.2 }

/-- The replayer in the role of a `leveldb.BatchReplay`. -/
def replayer.asBatchReplay {ω : Type} (w : Putter ω) : BatchReplay (replayer ω) :=
  { Put := replayer.Put w, Delete := replayer.Delete w }

/-- The method `(*LdbBatch).Replay`: returns what `b.batch.Replay` returns.  The
first component is the state of `w` afterwards. -/
def LdbBatch.Replay {ω : Type} (b : LdbBatch) (w : Putter ω) (s : ω) : ω × Option Error :=
  let res := b.batch.Replay (replayer.asBatchReplay w) { writer := s, failure := none }
  (res.1.writer, res.2)

/-! ## Vocabulary of the properties -/

/-- One staging call on a batch: the entry `put k v` is the call `b.Put(k, v)`,
the entry `del k` the call `b.Delete(k)`. -/
def LdbBatch.stage (b : LdbBatch) (o : Record) : LdbBatch :=
  match o with
  | Record.put k v => (b.Put k v).1
  | Record.del k => (b.Delete k).1

/-- A sequence of staging calls, first to last. -/
def LdbBatch.stageAll (b : LdbBatch) (ops : List Record) : LdbBatch :=
  ops.foldl LdbBatch.stage b

/-- The call on `w` an entry stands for: `w.Put(k, v)` or `w.Delete(k)`. -/
def Putter.call {ω : Type} (w : Putter ω) (s : ω) (o : Record) : ω × Option Error :=
  match o with
  | Record.put k v => w.Put s k v
  | Record.del k => w.Delete s k

/-- The calls of `ops` made on `w` one after another, up to and including the
first that returns an error; the result is the state of `w` and that error. -/
def Putter.runAll {ω : Type} (w : Putter ω) : ω → List Record → ω × Option Error
  | s, [] => (s, none)
  | s, o :: rest =>
    match (w.call s o).2 with
    | some e => ((w.call s o).1, some e)
    | none => Putter.runAll w (w.call s o).1 rest

/-- The position (counted from 1) of the first entry whose call on `w` returns
an error when the entries are called in order from state `s`; the number of
entries when none does. -/
def Putter.firstFailure {ω : Type} (w : Putter ω) : ω → List Record → Nat
  | _, [] => 0
  | s, o :: rest =>
    match (w.call s o).2 with
    | some _ => 1
    | none => 1 + Putter.firstFailure w (w.call s o).1 rest

/-- The writer `w` with a log of the calls made on it: every call is appended
to the log with its own arguments and then passed on to `w`. -/
def Putter.recording {ω : Type} (w : Putter ω) : Putter (ω × List Record) :=
  { Put := fun s k v => (((w.Put s.1 k v).1, s.2 ++ [Record.put k v]), (w.Put s.1 k v).2)
    Delete := fun s k => (((w.Delete s.1 k).1, s.2 ++ [Record.del k]), (w.Delete s.1 k).2) }

/-- A test writer: it keeps the list of the entries it applied and refuses,
with error `other 7`, every call whose key is `[2]`. -/
def testPutter : Putter (List Record) :=
  { Put := fun s k v =>
      if k = [2] then (s, some (Error.other 7)) else (s ++ [Record.put k v], none)
    Delete := fun s k =>
      if k = [2] then (s, some (Error.other 7)) else (s ++ [Record.del k], none) }

/-- An open engine with no content, and a handle on it. -/
def emptyHandle : LevelDB := { fn := "db", db := { closed := false, data := [] } }

/-- The key of an entry. -/
def goleveldb.Record.key (o : Record) : Bytes :=
  match o with
  | Record.put k _ => k
  | Record.del k => k

/-- The number of value bytes of an entry: `len(value)` for a `Put`, nothing for
a `Delete`. -/
def goleveldb.Record.valueLen (o : Record) : Nat :=
  match o with
  | Record.put _ v => v.length
  | Record.del _ => 0

/-- Whether the entry is a `Delete`. -/
def goleveldb.Record.isDelete (o : Record) : Bool :=
  match o with
  | Record.put _ _ => false
  | Record.del _ => true

/-- The size the claims give a sequence of staging calls: the sum of
`len(value)` over the `Put` calls plus the number of `Delete` calls. -/
def stagedSize (ops : List Record) : Int :=
  ((ops.map Record.valueLen).sum : Nat) + ((ops.filter Record.isDelete).length : Nat)

/-- The last entry of `ops` for the key `k`, if there is one: the last one
among the later entries, else the first entry when its key is `k`. -/
def lastFor : List Record → Bytes → Option Record
  | [], _ => none
  | o :: rest, k =>
    match lastFor rest k with
    | some r => some r
    | none => if o.key = k then some o else none

/-- A handle together with a batch obtained from it by `NewBatch`: the field
`db` of the batch and the field `db` of the handle point to the same engine,
kept in `handle.db`. -/
structure Session where
  handle : LevelDB
  b : LdbBatch
  deriving DecidableEq, Repr

/-- The statement `b := handle.NewBatch()`. -/
def Session.start (db : LevelDB) : Session := { handle := db, b := db.NewBatch }

/-- The call `b.Put(key, value)` in a session. -/
def Session.Put (s : Session) (key value : Bytes) : Session × Option Error :=
  ({ s with b := (s.b.Put key value).1 }, (s.b.Put key value).2)

/-- The call `b.Delete(key)` in a session. -/
def Session.Delete (s : Session) (key : Bytes) : Session × Option Error :=
  ({ s with b := (s.b.Delete key).1 }, (s.b.Delete key).2)

/-- The call `b.Reset()` in a session. -/
def Session.Reset (s : Session) : Session := { s with b := s.b.Reset }

/-- The call `b.Write()` in a session: the engine written is the handle's. -/
def Session.Write (s : Session) : Session × Option Error :=
  ({ s with handle := { s.handle with db := (s.b.Write s.handle.db).1 } },
    (s.b.Write s.handle.db).2)

/-- The call `b.Replay(handle)` in a session: the batch is replayed into the
handle it was made from. -/
def Session.ReplayOwn (s : Session) : Session × Option Error :=
  ({ s with handle := (s.b.Replay LevelDB.asPutter s.handle).1 },
    (s.b.Replay LevelDB.asPutter s.handle).2)

/-- One staging call in a session. -/
def Session.stage (s : Session) (o : Record) : Session × Option Error :=
  match o with
  | Record.put k v => s.Put k v
  | Record.del k => s.Delete k

/-- A sequence of staging calls in a session, first to last. -/
def Session.stageAll (s : Session) (ops : List Record) : Session :=
  ops.foldl (fun t o => (t.stage o).1) s

/-- A call of the package functions, as it appears in a log. -/
inductive PkgCall where
  | openFile (file : String)
  | recoverFile (file : String)
  deriving DecidableEq, Repr

/-- The package functions with a log of the calls made: every call is appended
to the log and then passed on. -/
def goleveldb.Package.recording {φ : Type} (pkg : Package φ) :
    Package (φ × List PkgCall) :=
  { OpenFile := fun s file =>
      (((pkg.OpenFile s.1 file).1, s.2 ++ [PkgCall.openFile file]),
        (pkg.OpenFile s.1 file).2)
    RecoverFile := fun s file =>
      (((pkg.RecoverFile s.1 file).1, s.2 ++ [PkgCall.recoverFile file]),
        (pkg.RecoverFile s.1 file).2) }

/-- A sequence of calls of `Init`, one per path, a caller recovering from every
panic; the result is the final state and the outcome of every call. -/
def InitAll {φ : Type} (pkg : Package φ) :
    φ → Globals → List String → (φ × Globals) × List (Outcome (Option LevelDB))
  | fs, g, [] => ((fs, g), [])
  | fs, g, file :: rest =>
    ((InitAll pkg (Init pkg fs g file).1.1 (Init pkg fs g file).1.2 rest).1,
      (Init pkg fs g file).2 ::
        (InitAll pkg (Init pkg fs g file).1.1 (Init pkg fs g file).1.2 rest).2)

/-- Test package functions over a trivial file system: every open fails with
the error `other 5`, every recovery with `other 6`. -/
def failingPkg : Package Unit :=
  { OpenFile := fun s _ => (s, Except.error (Error.other 5))
    RecoverFile := fun s _ => (s, Except.error (Error.other 6)) }

/-- Test package functions: every open reports corruption, every recovery
returns an open engine holding the one pair `([1], [10])`. -/
def corruptPkg : Package Unit :=
  { OpenFile := fun s _ => (s, Except.error (Error.ErrCorrupted 0))
    RecoverFile := fun s _ => (s, Except.ok { closed := false, data := [([1], [10])] }) }

/-- Test package functions: every open returns an open, empty engine. -/
def healthyPkg : Package Unit :=
  { OpenFile := fun s _ => (s, Except.ok { closed := false, data := [] })
    RecoverFile := fun s _ => (s, Except.error (Error.other 6)) }

/-! ## Lemmas on staging and replaying -/

theorem stageAll_recs (b : LdbBatch) (ops : List Record) :
    (b.stageAll ops).batch.recs = b.batch.recs ++ ops := by
  induction ops generalizing b with
  | nil => simp [LdbBatch.stageAll]
  | cons o rest ih =>
    have h := ih (b.stage o)
    simp only [LdbBatch.stageAll, List.foldl_cons] at h ⊢
    rw [h]
    cases o <;> simp [LdbBatch.stage, LdbBatch.Put, LdbBatch.Delete, Batch.Put, Batch.Delete]

theorem NewBatch_stageAll_recs (db : LevelDB) (ops : List Record) :
    (db.NewBatch.stageAll ops).batch.recs = ops := by
  rw [stageAll_recs]; simp [LevelDB.NewBatch, Batch.new]

theorem replayer_dispatch_failed {ω : Type} (w : Putter ω) (r : replayer ω) (e : Error)
    (h : r.failure = some e) (ops : List Record) :
    ops.foldl (replayer.asBatchReplay w).dispatch r = r := by
  induction ops with
  | nil => rfl
  | cons o rest ih =>
    rw [List.foldl_cons]
    have : (replayer.asBatchReplay w).dispatch r o = r := by
      cases o <;>
        simp [BatchReplay.dispatch, replayer.asBatchReplay, replayer.Put, replayer.Delete, h]
    rw [this, ih]

theorem replayer_dispatch_fresh {ω : Type} (w : Putter ω) (s : ω) (o : Record) :
    (replayer.asBatchReplay w).dispatch { writer := s, failure := none } o
      = { writer := (w.call s o).1, failure := (w.call s o).2 } := by
  cases o <;>
    simp [BatchReplay.dispatch, replayer.asBatchReplay, replayer.Put, replayer.Delete,
      Putter.call]

theorem replayer_foldl {ω : Type} (w : Putter ω) (s : ω) (ops : List Record) :
    ops.foldl (replayer.asBatchReplay w).dispatch { writer := s, failure := none }
      = { writer := (w.runAll s ops).1, failure := (w.runAll s ops).2 } := by
  induction ops generalizing s with
  | nil => rfl
  | cons o rest ih =>
    rw [List.foldl_cons, replayer_dispatch_fresh]
    cases hf : (w.call s o).2 with
    | some e =>
      rw [replayer_dispatch_failed w _ e rfl]
      simp [Putter.runAll, hf]
    | none =>
      rw [ih]
      simp [Putter.runAll, hf]

/-- What `Replay` leaves behind is the state of `w` after the calls of
`runAll`; what it returns is always `nil`. -/
theorem Replay_eq {ω : Type} (b : LdbBatch) (w : Putter ω) (s : ω) :
    b.Replay w s = ((w.runAll s b.batch.recs).1, none) := by
  simp [LdbBatch.Replay, Batch.Replay, replayer_foldl]

theorem recording_call {ω : Type} (w : Putter ω) (s : ω) (l : List Record) (o : Record) :
    w.recording.call (s, l) o = (((w.call s o).1, l ++ [o]), (w.call s o).2) := by
  cases o <;> simp [Putter.call, Putter.recording]

theorem recording_runAll {ω : Type} (w : Putter ω) (s : ω) (l : List Record)
    (ops : List Record) :
    w.recording.runAll (s, l) ops
      = (((w.runAll s ops).1, l ++ ops.take (w.firstFailure s ops)), (w.runAll s ops).2) := by
  induction ops generalizing s l with
  | nil => simp [Putter.runAll, Putter.firstFailure]
  | cons o rest ih =>
    cases hf : (w.call s o).2 with
    | some e => simp [Putter.runAll, Putter.firstFailure, recording_call, hf]
    | none =>
      simp [Putter.runAll, Putter.firstFailure, recording_call, hf, ih, Nat.add_comm 1]

theorem firstFailure_le {ω : Type} (w : Putter ω) (s : ω) (ops : List Record) :
    w.firstFailure s ops ≤ ops.length := by
  induction ops generalizing s with
  | nil => simp [Putter.firstFailure]
  | cons o rest ih =>
    cases hf : (w.call s o).2 with
    | some e => simp [Putter.firstFailure, hf]
    | none =>
      have := ih (w.call s o).1
      simp [Putter.firstFailure, hf]; omega

theorem firstFailure_of_ok {ω : Type} (w : Putter ω) (s : ω) (ops : List Record)
    (h : (w.runAll s ops).2 = none) : w.firstFailure s ops = ops.length := by
  induction ops generalizing s with
  | nil => simp [Putter.firstFailure]
  | cons o rest ih =>
    cases hf : (w.call s o).2 with
    | some e => simp [Putter.runAll, hf] at h
    | none =>
      simp [Putter.runAll, hf] at h
      simp [Putter.firstFailure, hf, ih _ h]; omega

theorem stagedSize_nil : stagedSize [] = 0 := by
  simp [stagedSize]

theorem stagedSize_cons (o : Record) (rest : List Record) :
    stagedSize (o :: rest)
      = (match o with
          | Record.put _ v => (v.length : Int)
          | Record.del _ => 1) + stagedSize rest := by
  cases o with
  | put k v =>
    simp [stagedSize, Record.valueLen, Record.isDelete]
    omega
  | del k =>
    simp [stagedSize, Record.valueLen, Record.isDelete]
    omega

theorem stageAll_size (b : LdbBatch) (ops : List Record) :
    (b.stageAll ops).size = b.size + stagedSize ops := by
  induction ops generalizing b with
  | nil => simp [LdbBatch.stageAll, stagedSize_nil]
  | cons o rest ih =>
    have h := ih (b.stage o)
    simp only [LdbBatch.stageAll, List.foldl_cons] at h ⊢
    rw [h, stagedSize_cons]
    cases o <;> simp [LdbBatch.stage, LdbBatch.Put, LdbBatch.Delete] <;> omega

theorem Reset_eq_NewBatch (b : LdbBatch) (db : LevelDB) : b.Reset = db.NewBatch := by
  simp [LdbBatch.Reset, LevelDB.NewBatch, Batch.Reset, Batch.new]

theorem Write_empty (b : LdbBatch) (db : DB) (h : b.batch.recs = []) :
    (b.Write db).1 = db := by
  unfold LdbBatch.Write DB.Write
  cases hok : db.ok with
  | some e => rfl
  | none => simp [h]

theorem session_stageAll_handle (t : Session) (ops : List Record) :
    (t.stageAll ops).handle = t.handle := by
  induction ops generalizing t with
  | nil => rfl
  | cons o rest ih =>
    have h := ih (t.stage o).1
    simp only [Session.stageAll, List.foldl_cons] at h ⊢
    rw [h]
    cases o <;> rfl

theorem session_stageAll_b (t : Session) (ops : List Record) :
    (t.stageAll ops).b = t.b.stageAll ops := by
  induction ops generalizing t with
  | nil => rfl
  | cons o rest ih =>
    have h := ih (t.stage o).1
    simp only [Session.stageAll, LdbBatch.stageAll, List.foldl_cons] at h ⊢
    rw [h]
    cases o <;> rfl

/-! ## Lemmas on the engine model -/

theorem find_erase_self (t : Table) (k : Bytes) : Table.find (Table.erase t k) k = none := by
  induction t with
  | nil => rfl
  | cons p rest ih =>
    obtain ⟨a, b⟩ := p
    by_cases h : a = k
    · simpa [Table.erase, List.filter_cons, h] using ih
    · have : Table.erase ((a, b) :: rest) k = (a, b) :: Table.erase rest k := by
        simp [Table.erase, List.filter_cons, h]
      rw [this]
      simp [Table.find, h, ih]

theorem find_erase_ne (t : Table) (k key : Bytes) (hne : k ≠ key) :
    Table.find (Table.erase t k) key = Table.find t key := by
  induction t with
  | nil => rfl
  | cons p rest ih =>
    obtain ⟨a, b⟩ := p
    by_cases h : a = k
    · have h1 : Table.erase ((a, b) :: rest) k = Table.erase rest k := by
        simp [Table.erase, List.filter_cons, h]
      have h2 : a ≠ key := by rw [h]; exact hne
      rw [h1, ih]
      simp [Table.find, h2]
    · have h1 : Table.erase ((a, b) :: rest) k = (a, b) :: Table.erase rest k := by
        simp [Table.erase, List.filter_cons, h]
      rw [h1]
      by_cases h3 : a = key
      · simp [Table.find, h3]
      · simp [Table.find, h3, ih]

theorem find_set_self (t : Table) (k v : Bytes) : Table.find (Table.set t k v) k = some v := by
  simp [Table.set, Table.find]

theorem find_set_ne (t : Table) (k v key : Bytes) (hne : k ≠ key) :
    Table.find (Table.set t k v) key = Table.find t key := by
  simp [Table.set, Table.find, hne, find_erase_ne t k key hne]

/-- The value under `key` after the entries `ops` were applied in order: decided
by the last entry for `key` when there is one, the old value otherwise. -/
theorem find_foldl_apply (ops : List Record) (t : Table) (key : Bytes) :
    Table.find (ops.foldl Table.apply t) key
      = (match lastFor ops key with
          | some (Record.put _ v) => some v
          | some (Record.del _) => none
          | none => Table.find t key) := by
  induction ops generalizing t with
  | nil => simp [lastFor]
  | cons o rest ih =>
    rw [List.foldl_cons, ih]
    cases hl : lastFor rest key with
    | some r => cases r <;> simp [lastFor, hl]
    | none =>
      by_cases hk : o.key = key
      · cases o with
        | put a b =>
          have ha : a = key := hk
          simp [lastFor, hl, Record.key, ha, Table.apply, find_set_self]
        | del a =>
          have ha : a = key := hk
          simp [lastFor, hl, Record.key, ha, Table.apply, find_erase_self]
      · cases o with
        | put a b =>
          have ha : a ≠ key := hk
          simp [lastFor, hl, Record.key, ha, Table.apply, find_set_ne]
        | del a =>
          have ha : a ≠ key := hk
          simp [lastFor, hl, Record.key, ha, Table.apply, find_erase_ne]

theorem ok_of_open (db : DB) (h : db.closed = false) : db.ok = none := by
  simp [DB.ok, h]

theorem ok_of_closed (db : DB) (h : db.closed = true) : db.ok = some Error.ErrClosed := by
  simp [DB.ok, h]

theorem open_of_Put_ok (db : DB) (k v : Bytes) (h : (db.Put k v).2 = none) :
    db.closed = false := by
  cases hc : db.closed with
  | false => rfl
  | true => simp [DB.Put, ok_of_closed db hc] at h

theorem open_of_Write_ok (db : DB) (b : Batch) (h : (db.Write b).2 = none) :
    db.closed = false := by
  cases hc : db.closed with
  | false => rfl
  | true => simp [DB.Write, ok_of_closed db hc] at h

theorem Write_of_open (db : DB) (b : Batch) (h : db.closed = false) :
    db.Write b = ({ db with data := b.recs.foldl Table.apply db.data }, none) := by
  simp [DB.Write, ok_of_open db h]

theorem Get_of_open (db : LevelDB) (key : Bytes) (h : db.db.closed = false) :
    db.Get key
      = (match Table.find db.db.data key with
          | some v => (some v, none)
          | none => (none, some Error.ErrNotFound)) := by
  unfold LevelDB.Get DB.Get
  rw [ok_of_open db.db h]
  cases Table.find db.db.data key <;> rfl

theorem Get_with_data (db : LevelDB) (d : Table) (key : Bytes) (h : db.db.closed = false) :
    ({ db with db := { db.db with data := d } } : LevelDB).Get key
      = (match Table.find d key with
          | some v => (some v, none)
          | none => (none, some Error.ErrNotFound)) :=
  Get_of_open { db with db := { db.db with data := d } } key h

theorem asPutter_call_open (h : LevelDB) (o : Record) (hc : h.db.closed = false) :
    LevelDB.asPutter.call h o
      = ({ h with db := { h.db with data := Table.apply h.db.data o } }, none) := by
  cases o <;>
    simp [Putter.call, LevelDB.asPutter, LevelDB.Put, LevelDB.Delete, DB.Put, DB.Delete,
      ok_of_open h.db hc, Table.apply]

theorem asPutter_call_closed (h : LevelDB) (o : Record) (hc : h.db.closed = true) :
    LevelDB.asPutter.call h o = (h, some Error.ErrClosed) := by
  cases o <;>
    simp [Putter.call, LevelDB.asPutter, LevelDB.Put, LevelDB.Delete, DB.Put, DB.Delete,
      ok_of_closed h.db hc]

theorem asPutter_runAll_open (ops : List Record) (h : LevelDB) (hc : h.db.closed = false) :
    LevelDB.asPutter.runAll h ops
      = ({ h with db := { h.db with data := ops.foldl Table.apply h.db.data } }, none) := by
  induction ops generalizing h with
  | nil => rfl
  | cons o rest ih =>
    have hcall := asPutter_call_open h o hc
    simp only [Putter.runAll, hcall]
    rw [ih { h with db := { h.db with data := Table.apply h.db.data o } } hc]
    rfl

theorem asPutter_runAll_closed (ops : List Record) (h : LevelDB) (hc : h.db.closed = true)
    (hok : (LevelDB.asPutter.runAll h ops).2 = none) : ops = [] := by
  cases ops with
  | nil => rfl
  | cons o rest =>
    have hcall := asPutter_call_closed h o hc
    simp [Putter.runAll, hcall] at hok

/-! ## Lemmas on opening -/

theorem NewDB_of_ok {φ : Type} (pkg : Package φ) (fs : φ) (file : String) (e : DB)
    (h : (pkg.OpenFile fs file).2 = Except.ok e) :
    NewDB pkg fs file = ((pkg.OpenFile fs file).1, some { fn := file, db := e }, none) := by
  simp [NewDB, h, corrupted]

theorem NewDB_of_corrupted {φ : Type} (pkg : Package φ) (fs : φ) (file : String) (i : Nat)
    (h : (pkg.OpenFile fs file).2 = Except.error (Error.ErrCorrupted i)) :
    NewDB pkg fs file
      = (match (pkg.RecoverFile (pkg.OpenFile fs file).1 file).2 with
          | Except.error err => ((pkg.RecoverFile (pkg.OpenFile fs file).1 file).1, none, some err)
          | Except.ok db =>
            ((pkg.RecoverFile (pkg.OpenFile fs file).1 file).1,
              some { fn := file, db := db }, none)) := by
  simp [NewDB, h, corrupted]

theorem NewDB_of_other {φ : Type} (pkg : Package φ) (fs : φ) (file : String) (err : Error)
    (h : (pkg.OpenFile fs file).2 = Except.error err)
    (hne : ∀ i : Nat, err ≠ Error.ErrCorrupted i) :
    NewDB pkg fs file = ((pkg.OpenFile fs file).1, none, some err) := by
  cases err with
  | ErrCorrupted i => exact absurd rfl (hne i)
  | ErrNotFound => simp [NewDB, h, corrupted]
  | ErrClosed => simp [NewDB, h, corrupted]
  | other c => simp [NewDB, h, corrupted]

theorem NewDB_handle_iff {φ : Type} (pkg : Package φ) (fs : φ) (file : String) :
    (∃ h : LevelDB, (NewDB pkg fs file).2 = (some h, none)) ∨
    (∃ e : Error, (NewDB pkg fs file).2 = (none, some e)) := by
  have key : ∀ r : φ × Except Error DB,
      (∃ h : LevelDB,
        (match r.2 with
          | Except.error err => (r.1, (none : Option LevelDB), some err)
          | Except.ok db => (r.1, some { fn := file, db := db }, none)).2 = (some h, none)) ∨
      (∃ e : Error,
        (match r.2 with
          | Except.error err => (r.1, (none : Option LevelDB), some err)
          | Except.ok db => (r.1, some { fn := file, db := db }, none)).2 = (none, some e)) := by
    intro r
    obtain ⟨a, b⟩ := r
    cases b with
    | error e => exact Or.inr ⟨e, rfl⟩
    | ok d => exact Or.inl ⟨_, rfl⟩
  exact key _

theorem Init_fired {φ : Type} (pkg : Package φ) (fs : φ) (g : Globals) (file : String)
    (h : g.once = true) : Init pkg fs g file = ((fs, g), Outcome.returned g.db) := by
  simp [Init, h]

theorem InitAll_fired {φ : Type} (pkg : Package φ) (fs : φ) (g : Globals)
    (files : List String) (h : g.once = true) :
    InitAll pkg fs g files = ((fs, g), files.map (fun _ => Outcome.returned g.db)) := by
  induction files with
  | nil => rfl
  | cons f rest ih => simp [InitAll, Init_fired pkg fs g f h, ih]

theorem Init_first_once {φ : Type} (pkg : Package φ) (fs : φ) (file : String) :
    (Init pkg fs Globals.initial file).1.2.once = true := by
  cases h : (NewDB pkg fs file).2.2 <;> simp [Init, Globals.initial, h]

theorem Init_first_state {φ : Type} (pkg : Package φ) (fs : φ) (file : String) :
    (Init pkg fs Globals.initial file).1.1 = (NewDB pkg fs file).1 ∧
    (Init pkg fs Globals.initial file).1.2.db = (NewDB pkg fs file).2.1 ∧
    (Init pkg fs Globals.initial file).1.2.err = (NewDB pkg fs file).2.2 := by
  cases h : (NewDB pkg fs file).2.2 <;> simp [Init, Globals.initial, h]

theorem Init_first_outcome {φ : Type} (pkg : Package φ) (fs : φ) (file : String) :
    (Init pkg fs Globals.initial file).2
      = (match (NewDB pkg fs file).2.2 with
          | some e => Outcome.panicked e
          | none => Outcome.returned (NewDB pkg fs file).2.1) := by
  cases h : (NewDB pkg fs file).2.2 <;> simp [Init, Globals.initial, h]

/-! ## Replay -/

/-- C1: for every batch `b`, with staged entries `b.batch.recs` (staging `ops` on
a new batch gives exactly the entries `ops`, in order), and every writer `w` in
any state `s`, `Replay` makes on `w` exactly the calls of the first `j` entries,
in staging order, each once and with its own key and value, where `j` is the
position of the first entry whose call on `w` returns an error (`j` is the
number of entries when none does); the state of `w` afterwards is the state
after these calls.  With three entries of which the first succeeds and the
second fails, `w` has received the first and the second call and no third. -/
theorem C1_replay_dispatches_up_to_first_failure {ω : Type} (b : LdbBatch)
    (w : Putter ω) (s : ω) :
    (∀ (db : LevelDB) (ops : List Record), (db.NewBatch.stageAll ops).batch.recs = ops) ∧
    (b.Replay w.recording (s, [])).1.2
      = b.batch.recs.take (w.firstFailure s b.batch.recs) ∧
    (b.Replay w.recording (s, [])).1.1 = (b.Replay w s).1 ∧
    (b.Replay w s).1 = (w.runAll s b.batch.recs).1 ∧
    w.firstFailure s b.batch.recs ≤ b.batch.recs.length ∧
    ((w.runAll s b.batch.recs).2 = none →
      w.firstFailure s b.batch.recs = b.batch.recs.length) ∧
    (∀ o1 o2 o3 : Record, b.batch.recs = [o1, o2, o3] →
      (w.call s o1).2 = none → (w.call (w.call s o1).1 o2).2 ≠ none →
      (b.Replay w.recording (s, [])).1.2 = [o1, o2] ∧
      (b.Replay w s).1 = (w.call (w.call s o1).1 o2).1) := by
  refine ⟨NewBatch_stageAll_recs, ?_, ?_, ?_, firstFailure_le w s _,
    firstFailure_of_ok w s _, ?_⟩
  · rw [Replay_eq, recording_runAll]; simp
  · rw [Replay_eq, Replay_eq, recording_runAll]
  · rw [Replay_eq]
  · intro o1 o2 o3 hops h1 h2
    rw [Replay_eq, Replay_eq, recording_runAll, hops]
    cases h2e : (w.call (w.call s o1).1 o2).2 with
    | none => exact absurd h2e h2
    | some e => simp [Putter.runAll, Putter.firstFailure, h1, h2e]

/-- Witness of C1: the entries `Put([1],[10])`, `Put([2],[20])`, `Delete([3])`
replayed into the test writer, which refuses key `[2]`. -/
theorem C1_replay_dispatches_up_to_first_failure_witness :
    ((emptyHandle.NewBatch.stageAll
        [Record.put [1] [10], Record.put [2] [20], Record.del [3]]).Replay
          testPutter.recording ([], [])).1.2
      = [Record.put [1] [10], Record.put [2] [20]] ∧
    ((emptyHandle.NewBatch.stageAll
        [Record.put [1] [10], Record.put [2] [20], Record.del [3]]).Replay
          testPutter []).1
      = [Record.put [1] [10]] :=
  (C1_replay_dispatches_up_to_first_failure
      (emptyHandle.NewBatch.stageAll
        [Record.put [1] [10], Record.put [2] [20], Record.del [3]])
      testPutter []).2.2.2.2.2.2
    (Record.put [1] [10]) (Record.put [2] [20]) (Record.del [3])
    (by decide) (by decide) (by decide)

/-- C2, evaluated: the entries `Put([1],[10])`, `Put([2],[20])`, `Delete([3])`
are replayed into the test writer; its second call returns the error `other 7`,
the writer has applied the first entry only, and `Replay` returns `nil`. -/
theorem C2_replay_returns_nil_after_failure :
    (testPutter.call [Record.put [1] [10]] (Record.put [2] [20])).2
      = some (Error.other 7) ∧
    (testPutter.runAll [] [Record.put [1] [10], Record.put [2] [20], Record.del [3]])
      = ([Record.put [1] [10]], some (Error.other 7)) ∧
    (emptyHandle.NewBatch.stageAll
        [Record.put [1] [10], Record.put [2] [20], Record.del [3]]).Replay testPutter []
      = ([Record.put [1] [10]], none) := by
  decide

/-! ## Size accounting, reset, staging -/

/-- C4: after any sequence of `Put` and `Delete` calls on a new batch, or on a
batch since its last `Reset`, `ValueSize()` is the sum of `len(value)` over the
`Put` calls plus the number of `Delete` calls; every `Put(key, value)` raises
the size by `len(value)` and every `Delete(key)` by 1, whatever the key. -/
theorem C4_value_size_formula (db : LevelDB) (b : LdbBatch) (ops : List Record) :
    (db.NewBatch.stageAll ops).ValueSize = stagedSize ops ∧
    (b.Reset.stageAll ops).ValueSize = stagedSize ops ∧
    (∀ key value : Bytes,
      (b.Put key value).1.ValueSize = b.ValueSize + (value.length : Int)) ∧
    (∀ key : Bytes, (b.Delete key).1.ValueSize = b.ValueSize + 1) := by
  refine ⟨?_, ?_, ?_, ?_⟩
  · simp [LdbBatch.ValueSize, stageAll_size, LevelDB.NewBatch]
  · simp [LdbBatch.ValueSize, stageAll_size, LdbBatch.Reset]
  · intro key value; rfl
  · intro key; rfl

/-- C5: after `Reset()` a batch in any state has no staged entry and
`ValueSize()` 0; a `Write()` right after leaves the engine as it was, a
`Replay(w)` right after makes no call on `w` and leaves it as it was; the batch
equals a new batch, so whatever is staged next behaves as on a new batch. -/
theorem C5_reset_clears_batch {ω : Type} (b : LdbBatch) (db : DB) (w : Putter ω) (s : ω)
    (fresh : LevelDB) (ops : List Record) :
    b.Reset.batch.recs = [] ∧
    b.Reset.ValueSize = 0 ∧
    (b.Reset.Write db).1 = db ∧
    (b.Reset.Replay w.recording (s, [])).1 = (s, []) ∧
    (b.Reset.Replay w s).1 = s ∧
    b.Reset = fresh.NewBatch ∧
    b.Reset.stageAll ops = fresh.NewBatch.stageAll ops := by
  refine ⟨rfl, rfl, Write_empty _ _ rfl, rfl, rfl, Reset_eq_NewBatch b fresh, ?_⟩
  rw [Reset_eq_NewBatch b fresh]

/-- C8: `LdbBatch.Put` and `LdbBatch.Delete` return `nil` on every batch, key
and value, and any number of staging calls leaves the engine of the handle as
it was: `Get(k)` and `Has(k)` on the handle return afterwards what they
returned before. -/
theorem C8_staging_leaves_engine_unchanged (t : Session) (ops : List Record) (k : Bytes) :
    (∀ key value : Bytes, (t.b.Put key value).2 = none) ∧
    (∀ key : Bytes, (t.b.Delete key).2 = none) ∧
    (∀ o : Record, (t.stage o).2 = none ∧ (t.stage o).1.handle = t.handle) ∧
    (t.stageAll ops).handle = t.handle ∧
    (t.stageAll ops).handle.Get k = t.handle.Get k ∧
    (t.stageAll ops).handle.Has k = t.handle.Has k := by
  refine ⟨fun _ _ => rfl, fun _ => rfl, ?_, session_stageAll_handle t ops, ?_, ?_⟩
  · intro o; cases o <;> exact ⟨rfl, rfl⟩
  · rw [session_stageAll_handle]
  · rw [session_stageAll_handle]

/-! ## Committing a batch, point operations -/

/-- C3: a batch is made from a handle by `NewBatch`, the entries `ops` are
staged on it and `Write` succeeds.  Then the engine holds its earlier content
with the entries applied one after another in staging order; for every key the
last staged entry decides: after a last `Put(k, v)`, `Get(k)` returns `v`,
after a last `Delete(k)` it returns the engine's NotFound error, and a key
with no entry reads as before. -/
theorem C3_write_applies_entries_in_order (db : LevelDB) (ops : List Record)
    (hw : ((Session.start db).stageAll ops).Write.2 = none) :
    ((Session.start db).stageAll ops).Write.1.handle.db
      = { db.db with data := ops.foldl Table.apply db.db.data } ∧
    (∀ k v : Bytes, lastFor ops k = some (Record.put k v) →
      ((Session.start db).stageAll ops).Write.1.handle.Get k = (some v, none)) ∧
    (∀ k : Bytes, lastFor ops k = some (Record.del k) →
      ((Session.start db).stageAll ops).Write.1.handle.Get k
        = (none, some Error.ErrNotFound)) ∧
    (∀ k : Bytes, lastFor ops k = none →
      ((Session.start db).stageAll ops).Write.1.handle.Get k = db.Get k) := by
  have hb : ((Session.start db).stageAll ops).b.batch.recs = ops := by
    rw [session_stageAll_b]; exact NewBatch_stageAll_recs db ops
  have hh : ((Session.start db).stageAll ops).handle = db := by
    rw [session_stageAll_handle]; rfl
  have hopen : db.db.closed = false := by
    have := open_of_Write_ok _ _ hw
    rwa [hh] at this
  have hstate : ((Session.start db).stageAll ops).Write.1.handle
      = { db with db := { db.db with data := ops.foldl Table.apply db.db.data } } := by
    simp only [Session.Write, LdbBatch.Write, hh]
    rw [Write_of_open db.db _ hopen, hb]
  refine ⟨by rw [hstate], ?_, ?_, ?_⟩
  · intro k v hl
    rw [hstate, Get_with_data db _ k hopen]
    simp only [find_foldl_apply, hl]
  · intro k hl
    rw [hstate, Get_with_data db _ k hopen]
    simp only [find_foldl_apply, hl]
  · intro k hl
    rw [hstate, Get_with_data db _ k hopen, Get_of_open db k hopen]
    simp only [find_foldl_apply, hl]

/-- Witness of C3: `Put(k, "a")` then `Put(k, "b")` staged and written on an
open engine that holds `(k, "z")`; `Get(k)` returns `"b"`. -/
theorem C3_write_applies_entries_in_order_witness :
    (((Session.start
          { fn := "db", db := { closed := false, data := [([107], [122])] } }).stageAll
        [Record.put [107] [97], Record.put [107] [98]]).Write.1.handle.Get [107])
      = (some [98], none) :=
  (C3_write_applies_entries_in_order
      { fn := "db", db := { closed := false, data := [([107], [122])] } }
      [Record.put [107] [97], Record.put [107] [98]] (by decide)).2.1
    [107] [98] (by decide)

/-- C7: whenever the engine's write of `(k, v)` succeeds, `LevelDB.Put(k, v)`
returns `nil` and a following `LevelDB.Get(k)` returns `(v, nil)`, whatever the
engine held under `k` before; `LevelDB.Get` returns a `nil` value together
with whatever error the engine's read returned, and on a key that is absent
from an open engine this is the engine's NotFound error. -/
theorem C7_put_then_get (db : LevelDB) (k v : Bytes) :
    ((db.db.Put k v).2 = none →
      (db.Put k v).2 = none ∧ (db.Put k v).1.Get k = (some v, none)) ∧
    (∀ e : Error, (db.db.Get k).2 = some e → db.Get k = (none, some e)) ∧
    (db.db.closed = false → Table.find db.db.data k = none →
      db.Get k = (none, some Error.ErrNotFound)) ∧
    (db.Has k = (false, none) → db.Get k = (none, some Error.ErrNotFound)) := by
  refine ⟨?_, ?_, ?_, ?_⟩
  · intro hput
    have hopen := open_of_Put_ok db.db k v hput
    refine ⟨hput, ?_⟩
    have hst : (db.Put k v).1 = { db with db := { db.db with data := Table.set db.db.data k v } } := by
      simp [LevelDB.Put, DB.Put, ok_of_open db.db hopen]
    rw [hst, Get_with_data db _ k hopen]
    simp only [find_set_self]
  · intro e he
    simp [LevelDB.Get, he]
  · intro hopen hfind
    rw [Get_of_open _ _ hopen, hfind]
  · intro hhas
    cases hc : db.db.closed with
    | true => simp [LevelDB.Has, DB.Has, ok_of_closed db.db hc] at hhas
    | false =>
      simp [LevelDB.Has, DB.Has, ok_of_open db.db hc] at hhas
      rw [Get_of_open _ _ hc, hhas]

/-- Witness of C7: on an open engine that holds `([1], [10])`, `Put([1], [11])`
then `Get([1])` returns `([11], nil)`, and `Get([2])` returns the NotFound
error. -/
theorem C7_put_then_get_witness :
    (({ fn := "db", db := { closed := false, data := [([1], [10])] } } : LevelDB).Put
        [1] [11]).1.Get [1] = (some [11], none) ∧
    ({ fn := "db", db := { closed := false, data := [([1], [10])] } } : LevelDB).Get [2]
      = (none, some Error.ErrNotFound) :=
  ⟨((C7_put_then_get { fn := "db", db := { closed := false, data := [([1], [10])] } }
      [1] [11]).1 (by decide)).2,
   (C7_put_then_get { fn := "db", db := { closed := false, data := [([1], [10])] } }
      [2] []).2.2.1 (by decide) (by decide)⟩

/-- C10: when every `Put` / `Delete` that replaying the batch makes on its own
handle succeeds, `Replay(handle)` returns `nil` and leaves the engine in the
state `Write()` leaves it in from the same start; neither call changes the
staged entries or `ValueSize()`. -/
theorem C10_replay_into_handle_equals_write (t : Session)
    (hok : (LevelDB.asPutter.runAll t.handle t.b.batch.recs).2 = none) :
    t.ReplayOwn.2 = none ∧
    t.ReplayOwn.1.handle = t.Write.1.handle ∧
    t.ReplayOwn.1.b = t.b ∧
    t.Write.1.b = t.b ∧
    t.ReplayOwn.1.b.ValueSize = t.b.ValueSize ∧
    t.Write.1.b.ValueSize = t.b.ValueSize := by
  refine ⟨?_, ?_, rfl, rfl, rfl, rfl⟩
  · simp [Session.ReplayOwn, Replay_eq]
  · simp only [Session.ReplayOwn, Session.Write, Replay_eq, LdbBatch.Write]
    cases hc : t.handle.db.closed with
    | false =>
      rw [asPutter_runAll_open _ _ hc, Write_of_open _ _ hc]
    | true =>
      have hnil := asPutter_runAll_closed _ _ hc hok
      rw [hnil]
      simp [Putter.runAll, DB.Write, ok_of_closed _ hc]

/-- Witness of C10: the entries `Put([1],[10])`, `Delete([1])`, `Put([2],[20])`
on an open engine that holds `([3], [30])`. -/
theorem C10_replay_into_handle_equals_write_witness :
    ((Session.start
        { fn := "db", db := { closed := false, data := [([3], [30])] } }).stageAll
      [Record.put [1] [10], Record.del [1], Record.put [2] [20]]).ReplayOwn.1.handle
    = ((Session.start
        { fn := "db", db := { closed := false, data := [([3], [30])] } }).stageAll
      [Record.put [1] [10], Record.del [1], Record.put [2] [20]]).Write.1.handle :=
  (C10_replay_into_handle_equals_write
    ((Session.start
        { fn := "db", db := { closed := false, data := [([3], [30])] } }).stageAll
      [Record.put [1] [10], Record.del [1], Record.put [2] [20]]) (by decide)).2.1

/-! ## Opening -/

/-- C6: whatever the open and the recovery of the engine do, `NewDB(path)` does
this.  When the open succeeds it returns a handle on the opened engine, with
`Path() = path`, and a `nil` error, and the open is the only call made.  When the
open fails with a corruption error it calls the recovery once, after the open,
and returns a handle on the recovered engine when the recovery succeeds, and
`(nil, the recovery's error)` when it fails.  When the open fails with any other
error the open is the only call made and `NewDB` returns `(nil, that error)`. -/
theorem C6_NewDB_open_recover {φ : Type} (pkg : Package φ) (fs : φ) (file : String) :
    (∀ e : DB, (pkg.OpenFile fs file).2 = Except.ok e →
      NewDB pkg fs file = ((pkg.OpenFile fs file).1, some { fn := file, db := e }, none) ∧
      LevelDB.Path { fn := file, db := e } = file ∧
      (NewDB pkg.recording (fs, []) file).1.2 = [PkgCall.openFile file]) ∧
    (∀ i : Nat, (pkg.OpenFile fs file).2 = Except.error (Error.ErrCorrupted i) →
      (NewDB pkg.recording (fs, []) file).1.2
        = [PkgCall.openFile file, PkgCall.recoverFile file] ∧
      (∀ e : DB, (pkg.RecoverFile (pkg.OpenFile fs file).1 file).2 = Except.ok e →
        NewDB pkg fs file
          = ((pkg.RecoverFile (pkg.OpenFile fs file).1 file).1,
              some { fn := file, db := e }, none)) ∧
      (∀ err : Error, (pkg.RecoverFile (pkg.OpenFile fs file).1 file).2 = Except.error err →
        NewDB pkg fs file
          = ((pkg.RecoverFile (pkg.OpenFile fs file).1 file).1, none, some err))) ∧
    (∀ err : Error, (pkg.OpenFile fs file).2 = Except.error err →
      (∀ i : Nat, err ≠ Error.ErrCorrupted i) →
      NewDB pkg fs file = ((pkg.OpenFile fs file).1, none, some err) ∧
      (NewDB pkg.recording (fs, []) file).1.2 = [PkgCall.openFile file]) := by
  refine ⟨?_, ?_, ?_⟩
  · intro e h
    refine ⟨NewDB_of_ok pkg fs file e h, rfl, ?_⟩
    have hr : (pkg.recording.OpenFile (fs, []) file).2 = Except.ok e := h
    rw [NewDB_of_ok pkg.recording (fs, []) file e hr]
    rfl
  · intro i h
    have hr : (pkg.recording.OpenFile (fs, []) file).2
        = Except.error (Error.ErrCorrupted i) := h
    refine ⟨?_, ?_, ?_⟩
    · rw [NewDB_of_corrupted pkg.recording (fs, []) file i hr]
      cases hrec : (pkg.RecoverFile (pkg.OpenFile fs file).1 file).2 <;>
        simp [Package.recording, hrec]
    · intro e he
      rw [NewDB_of_corrupted pkg fs file i h, he]
    · intro err he
      rw [NewDB_of_corrupted pkg fs file i h, he]
  · intro err h hne
    refine ⟨NewDB_of_other pkg fs file err h hne, ?_⟩
    have hr : (pkg.recording.OpenFile (fs, []) file).2 = Except.error err := h
    rw [NewDB_of_other pkg.recording (fs, []) file err hr hne]
    rfl

/-- Witness of C6: an open that reports corruption followed by a recovery that
succeeds, and an open that fails with the error `other 5`. -/
theorem C6_NewDB_open_recover_witness :
    NewDB corruptPkg () "p"
      = ((), some { fn := "p", db := { closed := false, data := [([1], [10])] } }, none) ∧
    (NewDB corruptPkg.recording ((), []) "p").1.2
      = [PkgCall.openFile "p", PkgCall.recoverFile "p"] ∧
    NewDB failingPkg () "p" = ((), none, some (Error.other 5)) ∧
    (NewDB failingPkg.recording ((), []) "p").1.2 = [PkgCall.openFile "p"] :=
  ⟨((C6_NewDB_open_recover corruptPkg () "p").2.1 0 rfl).2.1 _ rfl,
   ((C6_NewDB_open_recover corruptPkg () "p").2.1 0 rfl).1,
   ((C6_NewDB_open_recover failingPkg () "p").2.2 (Error.other 5) rfl
      (fun _ h => Error.noConfusion h)).1,
   ((C6_NewDB_open_recover failingPkg () "p").2.2 (Error.other 5) rfl
      (fun _ h => Error.noConfusion h)).2⟩

/-- C9 as the code has it: in a process, the first call of `Init` runs `NewDB`
on its path; when that returns a handle the call returns it, when it returns an
error the call panics with that error.  Every later call, whatever its path,
makes no call of the package functions and returns the package-level handle as
the first call left it: the first call's handle after a success, `nil` and no
panic after a failure. -/
theorem C9_Init_opens_once {φ : Type} (pkg : Package φ) (fs : φ) (file : String)
    (files : List String) :
    (Init pkg fs Globals.initial file).1.1 = (NewDB pkg fs file).1 ∧
    InitAll pkg (Init pkg fs Globals.initial file).1.1
        (Init pkg fs Globals.initial file).1.2 files
      = ((Init pkg fs Globals.initial file).1,
          files.map (fun _ => Outcome.returned (NewDB pkg fs file).2.1)) ∧
    (InitAll pkg.recording (Init pkg.recording (fs, []) Globals.initial file).1.1
        (Init pkg.recording (fs, []) Globals.initial file).1.2 files).1.1.2
      = (NewDB pkg.recording (fs, []) file).1.2 ∧
    (∀ h : LevelDB, (NewDB pkg fs file).2 = (some h, none) →
      (Init pkg fs Globals.initial file).2 = Outcome.returned (some h) ∧
      ∀ o ∈ (InitAll pkg (Init pkg fs Globals.initial file).1.1
          (Init pkg fs Globals.initial file).1.2 files).2, o = Outcome.returned (some h)) ∧
    (∀ e : Error, (NewDB pkg fs file).2.2 = some e →
      (Init pkg fs Globals.initial file).2 = Outcome.panicked e ∧
      ∀ o ∈ (InitAll pkg (Init pkg fs Globals.initial file).1.1
          (Init pkg fs Globals.initial file).1.2 files).2, o = Outcome.returned none) := by
  have hall : ∀ {ψ : Type} (q : Package ψ) (st : ψ),
      InitAll q (Init q st Globals.initial file).1.1 (Init q st Globals.initial file).1.2 files
        = ((Init q st Globals.initial file).1,
            files.map (fun _ => Outcome.returned (NewDB q st file).2.1)) := by
    intro ψ q st
    rw [InitAll_fired q _ _ files (Init_first_once q st file),
      (Init_first_state q st file).2.1]
  refine ⟨(Init_first_state pkg fs file).1, hall pkg fs, ?_, ?_, ?_⟩
  · rw [hall pkg.recording (fs, []), (Init_first_state pkg.recording (fs, []) file).1]
  · intro h hh
    refine ⟨?_, ?_⟩
    · rw [Init_first_outcome, hh]
    · intro o ho
      rw [hall pkg fs, hh] at ho
      simp only [List.mem_map] at ho
      obtain ⟨_, _, rfl⟩ := ho
      rfl
  · intro e he
    refine ⟨?_, ?_⟩
    · rw [Init_first_outcome, he]
    · intro o ho
      have hnone : (NewDB pkg fs file).2.1 = none := by
        rcases NewDB_handle_iff pkg fs file with ⟨h, hh⟩ | ⟨e2, hh⟩
        · rw [hh] at he; cases he
        · rw [hh]
      rw [hall pkg fs, hnone] at ho
      simp only [List.mem_map] at ho
      obtain ⟨_, _, rfl⟩ := ho
      rfl

/-- Witness of C9: a first call of `Init` whose open succeeds, followed by two
more calls, and a first call whose open fails, followed by one more call. -/
theorem C9_Init_opens_once_witness :
    ((Init healthyPkg () Globals.initial "p").2
        = Outcome.returned (some { fn := "p", db := { closed := false, data := [] } }) ∧
      ∀ o ∈ (InitAll healthyPkg (Init healthyPkg () Globals.initial "p").1.1
          (Init healthyPkg () Globals.initial "p").1.2 ["q", "p"]).2,
        o = Outcome.returned (some { fn := "p", db := { closed := false, data := [] } })) ∧
    ((Init failingPkg () Globals.initial "p").2 = Outcome.panicked (Error.other 5) ∧
      ∀ o ∈ (InitAll failingPkg (Init failingPkg () Globals.initial "p").1.1
          (Init failingPkg () Globals.initial "p").1.2 ["q"]).2,
        o = Outcome.returned none) :=
  ⟨(C9_Init_opens_once healthyPkg () "p" ["q", "p"]).2.2.2.1
      { fn := "p", db := { closed := false, data := [] } } rfl,
   (C9_Init_opens_once failingPkg () "p" ["q"]).2.2.2.2 (Error.other 5) rfl⟩

/-- C9, counterexample: every open fails with the error `other 5`.  The first
call of `Init` panics with that error; the second call does not fail with it
but returns a `nil` handle. -/
theorem C9_later_Init_returns_nil_after_panic :
    (InitAll failingPkg () Globals.initial ["p", "p"]).2
      = [Outcome.panicked (Error.other 5), Outcome.returned none] ∧
    (Init failingPkg (Init failingPkg () Globals.initial "p").1.1
        (Init failingPkg () Globals.initial "p").1.2 "p").2
      ≠ Outcome.panicked (Error.other 5) := by
  refine ⟨rfl, ?_⟩
  intro h
  exact Outcome.noConfusion h

end LevelDBStore
